import Mathlib

/-!
Verification of the grid-world multi-agent testbed (environment state machine,
agent decision policies, bounded A* planner).

The definitions in the first half of this file are a shallow embedding of the
Python sources `common.py`, `environment.py` and `agents.py`:
* Python dictionaries become association lists (insertion-ordered, updated in
  place on an existing key, appended on a fresh key), matching `dict`
  semantics observably;
* Python floats used for energy become rationals (all arithmetic performed on
  them is exact in binary floating point: subtract 1, add 1/2);
* Python's `heapq` becomes a list from which the minimum by
  (priority, tie-breaker) is extracted — the tie-breaker counter makes all
  keys distinct, so the heap order is total and position values are never
  compared, exactly as in the source;
* the `random.choice` call of the exploration fallback is abstracted by an
  oracle function `rand` supplied to the decision procedure;
* fallible operations (`KeyError` on a missing dictionary key) return
  `Option`.
-/

namespace AMAI

/-- `CellType` enum of `common.py`. -/
inductive CellType where
  | EMPTY
  | WALL
  | GOAL
  | RESOURCE
  | HAZARD
deriving DecidableEq, Repr

/-- `Direction` enum of `common.py` (unit displacements). -/
inductive Direction where
  | NORTH
  | SOUTH
  | EAST
  | WEST
deriving DecidableEq, Repr

/-- `Action` enum of `common.py`. -/
inductive Action where
  | MOVE_NORTH
  | MOVE_SOUTH
  | MOVE_EAST
  | MOVE_WEST
  | PICKUP
  | DROP
  | WAIT
deriving DecidableEq, Repr

/-- `Position` dataclass of `common.py` (frozen, hence usable as a dict key). -/
structure Position where
  x : Int
  y : Int
deriving DecidableEq, Repr

/-- `Direction.value`: the (dx, dy) displacement of each direction. -/
def Direction.value : Direction → Int × Int
  | .NORTH => (0, -1)
  | .SOUTH => (0, 1)
  | .EAST => (1, 0)
  | .WEST => (-1, 0)

/-- `Position.__add__`: apply a direction's displacement to a position. -/
def Position.add (p : Position) (d : Direction) : Position :=
  ⟨p.x + d.value.1, p.y + d.value.2⟩

/-- `PlanStep` dataclass of `common.py`. -/
structure PlanStep where
  action : Action
deriving DecidableEq, Repr

/-- Iteration order of `for direction in Direction:` (enum definition order). -/
def directionsList : List Direction :=
  [.NORTH, .SOUTH, .EAST, .WEST]

/-- `SimpleReflexAgent._direction_to_action` (`Action[f"MOVE_{direction.name}"]`). -/
def direction_to_action : Direction → Action
  | .NORTH => .MOVE_NORTH
  | .SOUTH => .MOVE_SOUTH
  | .EAST => .MOVE_EAST
  | .WEST => .MOVE_WEST

/-! ### Association lists modelling Python `dict` -/

/-- Lookup in an association list (Python `d.get(k)` / `d[k]`). -/
def lookupA {α β : Type} [DecidableEq α] : List (α × β) → α → Option β
  | [], _ => none
  | (k, v) :: l, k' => if k' = k then some v else lookupA l k'

/-- Store in an association list (Python `d[k] = v`): overwrite in place when
the key is present, append otherwise (insertion order preserved). -/
def updateA {α β : Type} [DecidableEq α] : List (α × β) → α → β → List (α × β)
  | [], k, v => [(k, v)]
  | (k0, v0) :: l, k, v =>
      if k = k0 then (k0, v) :: l else (k0, v0) :: updateA l k v

/-- Number of occurrences of an action in a history list
(Python `list.count`). -/
def actCount (a : Action) : List Action → Nat
  | [] => 0
  | b :: l => (if b = a then 1 else 0) + actCount a l

/-- The derived carrying flag: `count(PICKUP) > count(DROP)`
(`GridWorld.get_perception`). -/
def hasResourceOf (h : List Action) : Bool :=
  decide (actCount .DROP h < actCount .PICKUP h)

/-! ### Agent base-class state (`Agent.__init__` in `agents.py`) -/

/-- The mutable base-class fields of `Agent` that the environment touches:
`agent_id`, `total_rewards` (energy) and `action_history`.  `name` and the
diagnostic `rule_activations` counters are irrelevant to every claim and
omitted. -/
structure AgentState where
  agent_id : Int := -1
  total_rewards : ℚ := 100
  action_history : List Action := []
deriving DecidableEq, Repr

/-! ### The environment (`environment.py`) -/

/-- `GridWorld` state.  The grid is an association list whose absent keys read
as `EMPTY` (the `defaultdict` default; the code only ever reads it through
`.get`, which does not insert). -/
structure GridWorld where
  width : Int
  height : Int
  perception_range : Nat
  time_step : Nat
  grid : List (Position × CellType)
  agents : List (Int × AgentState)
  agent_positions : List (Int × Position)
  initial_resource_count : Nat
  tasks_completed : Nat
  task_completion_times : List Nat
deriving DecidableEq, Repr

/-- `GridWorld.__init__`: stores the dimensions and radius, everything else
empty/zero.  The source performs no validation of any argument. -/
def GridWorld.init (width height : Int) (perception_range : Nat) : GridWorld :=
  { width := width
    height := height
    perception_range := perception_range
    time_step := 0
    grid := []
    agents := []
    agent_positions := []
    initial_resource_count := 0
    tasks_completed := 0
    task_completion_times := [] }

/-- `GridWorld.is_valid_position`. -/
def GridWorld.is_valid_position (s : GridWorld) (p : Position) : Bool :=
  decide (0 ≤ p.x) && decide (p.x < s.width) && decide (0 ≤ p.y) && decide (p.y < s.height)

/-- `GridWorld.is_position_free`: in bounds, not a Wall cell, not occupied by
any registered agent. -/
def GridWorld.is_position_free (s : GridWorld) (p : Position) : Bool :=
  let is_wall := lookupA s.grid p = some CellType.WALL
  let is_occupied := s.agent_positions.any (fun e => decide (e.2 = p))
  s.is_valid_position p && !(decide is_wall) && !is_occupied

/-- `GridWorld.add_walls`. -/
def GridWorld.add_walls (s : GridWorld) (ps : List Position) : GridWorld :=
  ps.foldl (fun t p =>
    if t.is_valid_position p then { t with grid := updateA t.grid p CellType.WALL } else t) s

/-- `GridWorld.add_goals`. -/
def GridWorld.add_goals (s : GridWorld) (ps : List Position) : GridWorld :=
  ps.foldl (fun t p =>
    if t.is_valid_position p then { t with grid := updateA t.grid p CellType.GOAL } else t) s

/-- `GridWorld.add_resources` (also records the initial resource count). -/
def GridWorld.add_resources (s : GridWorld) (ps : List Position) : GridWorld :=
  let t := ps.foldl (fun t p =>
    if t.is_valid_position p then { t with grid := updateA t.grid p CellType.RESOURCE } else t) s
  { t with initial_resource_count := ps.length }

/-- `GridWorld.add_hazards`. -/
def GridWorld.add_hazards (s : GridWorld) (ps : List Position) : GridWorld :=
  ps.foldl (fun t p =>
    if t.is_valid_position p then { t with grid := updateA t.grid p CellType.HAZARD } else t) s

/-- `GridWorld.add_agent`: succeeds iff the position is free; on success sets
the agent's id to `len(agents) + 1` and registers agent and position. -/
def GridWorld.add_agent (s : GridWorld) (agent : AgentState) (position : Position) :
    Bool × GridWorld :=
  if s.is_position_free position then
    let agent_id : Int := (s.agents.length : Int) + 1
    (true,
      { s with
        agents := updateA s.agents agent_id { agent with agent_id := agent_id }
        agent_positions := updateA s.agent_positions agent_id position })
  else (false, s)

/-- The `Perception` dataclass (`common.py`), as produced by
`GridWorld.get_perception`.  `visible_agents` and `messages` are always empty
in the source ("not implemented for simplicity") and are omitted. -/
structure Perception where
  position : Position
  visible_cells : List (Position × CellType)
  energy_level : ℚ
  has_resource : Bool
deriving DecidableEq, Repr

/-- The offsets `range(-R, R + 1)` of the perception window loops. -/
def offsets (R : Nat) : List Int :=
  (List.range (2 * R + 1)).map (fun (k : Nat) => (k : Int) - (R : Int))

/-- One cell of the perception window: `WALL` out of bounds, else the stored
cell (`EMPTY` when unset). -/
def GridWorld.windowCell (s : GridWorld) (pos : Position) : CellType :=
  if s.is_valid_position pos then (lookupA s.grid pos).getD CellType.EMPTY
  else CellType.WALL

/-- The double loop of `GridWorld.get_perception` building `visible_cells`
(`y_offset` outer, `x_offset` inner).  All generated keys are distinct, so
the Python dict assignments are plain insertions in this order. -/
def GridWorld.visibleCells (s : GridWorld) (center : Position) :
    List (Position × CellType) :=
  (offsets s.perception_range).flatMap (fun dy =>
    (offsets s.perception_range).map (fun dx =>
      let pos : Position := ⟨center.x + dx, center.y + dy⟩
      (pos, s.windowCell pos)))

/-- `GridWorld.get_perception` (`none` models the `KeyError` on an
unregistered id). -/
def GridWorld.get_perception (s : GridWorld) (agent_id : Int) : Option Perception :=
  match lookupA s.agent_positions agent_id, lookupA s.agents agent_id with
  | some agent_pos, some agent =>
      some
        { position := agent_pos
          visible_cells := s.visibleCells agent_pos
          energy_level := agent.total_rewards
          has_resource := hasResourceOf agent.action_history }
  | _, _ => none

/-- The movement branch of `execute_action`: move only if the destination is
free (in bounds, not Wall, unoccupied); otherwise no-op. -/
def GridWorld.doMove (s : GridWorld) (agent_id : Int) (current_pos : Position)
    (d : Direction) : GridWorld :=
  let next_pos := current_pos.add d
  if s.is_position_free next_pos then
    { s with agent_positions := updateA s.agent_positions agent_id next_pos }
  else s

/-- `GridWorld.execute_action`: deduct 1 energy unconditionally, then apply
the action-specific effect.  `none` models the `KeyError` on an unregistered
agent id. -/
def GridWorld.execute_action (s : GridWorld) (agent_id : Int) (action : Action) :
    Option GridWorld :=
  match lookupA s.agents agent_id, lookupA s.agent_positions agent_id with
  | some agent0, some current_pos =>
      let agent : AgentState := { agent0 with total_rewards := agent0.total_rewards - 1 }
      let s1 : GridWorld := { s with agents := updateA s.agents agent_id agent }
      some (match action with
        | .MOVE_NORTH => s1.doMove agent_id current_pos .NORTH
        | .MOVE_SOUTH => s1.doMove agent_id current_pos .SOUTH
        | .MOVE_EAST => s1.doMove agent_id current_pos .EAST
        | .MOVE_WEST => s1.doMove agent_id current_pos .WEST
        | .PICKUP =>
            if lookupA s1.grid current_pos = some CellType.RESOURCE then
              { s1 with
                agents := updateA s1.agents agent_id
                  { agent with action_history := agent.action_history ++ [Action.PICKUP] }
                grid := updateA s1.grid current_pos CellType.EMPTY }
            else s1
        | .DROP =>
            if actCount .DROP agent.action_history < actCount .PICKUP agent.action_history then
              let s2 : GridWorld :=
                { s1 with
                  agents := updateA s1.agents agent_id
                    { agent with action_history := agent.action_history ++ [Action.DROP] } }
              if lookupA s2.grid current_pos = some CellType.GOAL then
                { s2 with
                  tasks_completed := s2.tasks_completed + 1
                  task_completion_times := s2.task_completion_times ++ [s2.time_step] }
              else { s2 with grid := updateA s2.grid current_pos CellType.RESOURCE }
            else s1
        | .WAIT =>
            { s1 with
              agents := updateA s1.agents agent_id
                { agent with total_rewards := agent.total_rewards + 1/2 } })
  | _, _ => none

/-- A sequence of `execute_action` calls (`none` as soon as one call raises). -/
def execList (s : GridWorld) : List (Int × Action) → Option GridWorld
  | [] => some s
  | (i, a) :: rest =>
      match s.execute_action i a with
      | some s' => execList s' rest
      | none => none

/-- The body of the `for` loop of `GridWorld.step` for one agent id: skip the
agent if its energy is ≤ 0, otherwise perceive, decide and execute.  The
decision (`agent.decide_action(perception)`) is abstracted by the oracle
`df`, which sees the current state and the agent id — every concrete policy
(including its internal memory and random choices) is an instance. -/
def GridWorld.stepOne (df : GridWorld → Int → Action) (s : GridWorld) (agent_id : Int) :
    GridWorld :=
  match lookupA s.agents agent_id with
  | none => s
  | some agent =>
      if agent.total_rewards ≤ 0 then s
      else (s.execute_action agent_id (df s agent_id)).getD s

/-- `GridWorld.step`: increment the tick counter, then process every
registered agent in registration order. -/
def GridWorld.step (df : GridWorld → Int → Action) (s : GridWorld) : GridWorld :=
  let s1 : GridWorld := { s with time_step := s.time_step + 1 }
  (s1.agents.map Prod.fst).foldl (GridWorld.stepOne df) s1

/-- `n` consecutive `step()` calls. -/
def GridWorld.stepN (df : GridWorld → Int → Action) (s : GridWorld) : Nat → GridWorld
  | 0 => s
  | n + 1 => GridWorld.stepN df (s.step df) n

/-! ### Shared agent helpers (`agents.py`) -/

/-- `SimpleReflexAgent._random_valid_move`: the movement actions whose
destination within the perception window is neither `WALL` nor `HAZARD`
(an out-of-window destination reads as `None`, which qualifies); `WAIT` when
no move qualifies, otherwise a `random.choice` among them, abstracted by the
oracle `rand`. -/
def random_valid_move (rand : List Action → Action)
    (visible_cells : List (Position × CellType)) (current_pos : Position) : Action :=
  let valid_moves := directionsList.filterMap (fun d =>
    let next_pos := current_pos.add d
    match lookupA visible_cells next_pos with
    | some .WALL => none
    | some .HAZARD => none
    | _ => some (direction_to_action d))
  match valid_moves with
  | [] => .WAIT
  | _ => rand valid_moves

/-- Python `set.add` on a set modelled as a duplicate-free insertion-ordered
list. -/
def insertPos (l : List Position) (p : Position) : List Position :=
  if p ∈ l then l else l ++ [p]

/-- Python `set.remove`. -/
def removePos (l : List Position) (p : Position) : List Position :=
  l.filter (fun q => decide (q ≠ p))

/-- Manhattan distance (the planner's `heuristic` and the distance used for
candidate utilities). -/
def manhattan (a b : Position) : Nat :=
  (a.x - b.x).natAbs + (a.y - b.y).natAbs

/-! ### ModelBasedReflexAgent world model (`agents.py`) -/

/-- The cumulative world model of `ModelBasedReflexAgent`. -/
structure MBModel where
  visited_positions : List Position := []
  known_walls : List Position := []
  known_resources : List Position := []
  known_goals : List Position := []
  known_hazards : List Position := []
deriving DecidableEq, Repr

/-- Merging one visible cell into the model (one iteration of the `for` loop
of `_update_world_model`). -/
def mbMergeCell (m : MBModel) (pc : Position × CellType) : MBModel :=
  match pc.2 with
  | .WALL => { m with known_walls := insertPos m.known_walls pc.1 }
  | .RESOURCE => { m with known_resources := insertPos m.known_resources pc.1 }
  | .GOAL => { m with known_goals := insertPos m.known_goals pc.1 }
  | .HAZARD => { m with known_hazards := insertPos m.known_hazards pc.1 }
  | .EMPTY => m

/-- `ModelBasedReflexAgent._update_world_model` (the history is the agent's
`action_history`). -/
def mb_update_world_model (m : MBModel) (action_history : List Action)
    (perception : Perception) : MBModel :=
  let m1 := { m with visited_positions := insertPos m.visited_positions perception.position }
  let m2 := perception.visible_cells.foldl mbMergeCell m1
  if action_history ≠ [] ∧ perception.position ∈ m2.known_resources ∧
      perception.has_resource = false ∧ action_history.getLast? = some .PICKUP then
    { m2 with known_resources := removePos m2.known_resources perception.position }
  else m2

/-! ### GoalBasedAgent (`agents.py`) -/

/-- The internal state of `GoalBasedAgent` relevant to its decisions: the
base-class `action_history` plus the queued plan and the cumulative world
model (no hazard tracking). -/
structure GBState where
  action_history : List Action := []
  current_plan : List PlanStep := []
  visited_positions : List Position := []
  known_walls : List Position := []
  known_resources : List Position := []
  known_goals : List Position := []
deriving DecidableEq, Repr

/-- Merging one visible cell into the goal-based agent's model. -/
def gbMergeCell (g : GBState) (pc : Position × CellType) : GBState :=
  match pc.2 with
  | .WALL => { g with known_walls := insertPos g.known_walls pc.1 }
  | .RESOURCE => { g with known_resources := insertPos g.known_resources pc.1 }
  | .GOAL => { g with known_goals := insertPos g.known_goals pc.1 }
  | _ => g

/-- `GoalBasedAgent._update_world_model`. -/
def gb_update_world_model (g : GBState) (perception : Perception) : GBState :=
  let g1 := { g with visited_positions := insertPos g.visited_positions perception.position }
  let g2 := perception.visible_cells.foldl gbMergeCell g1
  if g.action_history ≠ [] ∧ perception.position ∈ g2.known_resources ∧
      perception.has_resource = false ∧ g.action_history.getLast? = some .PICKUP then
    { g2 with known_resources := removePos g2.known_resources perception.position }
  else g2

/-! #### Bounded A* (`GoalBasedAgent._find_path_astar`) -/

/-- A frontier entry `(priority, tie_breaker, position)`. -/
abbrev FrontierEntry := Nat × Nat × Position

/-- Heap order on frontier entries: lexicographic on
(priority, tie-breaker).  Tie-breakers are pairwise distinct, so positions
are never compared (exactly why the source introduces the counter). -/
def entryLe (e1 e2 : FrontierEntry) : Bool :=
  decide (e1.1 < e2.1) || (decide (e1.1 = e2.1) && decide (e1.2.1 ≤ e2.2.1))

/-- `heapq.heappop` on a non-empty frontier: extract the minimum entry and
return it with the remaining entries. -/
def popMinNE : FrontierEntry → List FrontierEntry → FrontierEntry × List FrontierEntry
  | e, [] => (e, [])
  | e, e' :: es =>
      let r := popMinNE e' es
      if entryLe e r.1 then (e, e' :: es) else (r.1, e :: r.2)

/-- `came_from` map: position ↦ `None` (the start) or (predecessor, action). -/
abbrev CameFrom := List (Position × Option (Position × Action))

/-- `cost_so_far` map. -/
abbrev CostSoFar := List (Position × Nat)

/-- The mutable search state threaded through one node expansion:
(frontier, came_from, cost_so_far, tie_breaker_counter). -/
abbrev AStarSearchState := List FrontierEntry × CameFrom × CostSoFar × Nat

/-- One iteration of the `for direction in Direction:` expansion loop. -/
def expandDir (goal : Position) (walls : List Position) (cur : Position)
    (curCost : Nat) (st : AStarSearchState) (d : Direction) : AStarSearchState :=
  let act := direction_to_action d
  let next_pos := cur.add d
  if next_pos ∈ walls then st
  else
    let new_cost := curCost + 1
    let better :=
      match lookupA st.2.2.1 next_pos with
      | none => true
      | some c => decide (new_cost < c)
    if better then
      let priority := new_cost + manhattan next_pos goal
      let tie := st.2.2.2 + 1
      (st.1 ++ [(priority, tie, next_pos)],
       updateA st.2.1 next_pos (some (cur, act)),
       updateA st.2.2.1 next_pos new_cost,
       tie)
    else st

/-- Result of the A* main loop: `aborted` when the 200-iteration cap fires
(the source returns `[]`), `finished` when the loop exits normally (goal
popped or frontier exhausted), `missingCost` for the (unreachable) case of a
popped node absent from `cost_so_far` (a `KeyError` in the source). -/
inductive AStarResult where
  | aborted
  | finished (cf : CameFrom) (cs : CostSoFar)
  | missingCost
deriving Repr

/-- The `while frontier:` loop.  `fuel` is the number of pops still allowed
by the 200-iteration cap (the source checks the cap before popping).  Also
returns the number of pops performed. -/
def astarLoop (goal : Position) (walls : List Position) :
    Nat → List FrontierEntry → CameFrom → CostSoFar → Nat → AStarResult × Nat
  | _, [], cf, cs, _ => (.finished cf cs, 0)
  | 0, _ :: _, _, _, _ => (.aborted, 0)
  | fuel + 1, e :: es, cf, cs, tie =>
      let pr := popMinNE e es
      let current_pos := pr.1.2.2
      if current_pos = goal then (.finished cf cs, 1)
      else
        match lookupA cs current_pos with
        | none => (.missingCost, 1)
        | some curCost =>
            let st := directionsList.foldl (expandDir goal walls current_pos curCost)
              (pr.2, cf, cs, tie)
            let r := astarLoop goal walls fuel st.1 st.2.1 st.2.2.1 st.2.2.2
            (r.1, r.2 + 1)

/-- The reconstruction loop `while temp != start:` walking the predecessor
links from the goal back to the start, accumulating actions in execution
order.  `none` models a diverging or `KeyError`-raising walk; the fuel chosen
in `find_path_astar` always suffices because costs strictly decrease along
predecessor links. -/
def reconstructPath (cf : CameFrom) (start : Position) :
    Nat → Position → List Action → Option (List Action)
  | 0, _, _ => none
  | fuel + 1, temp, acc =>
      if temp = start then some acc
      else
        match lookupA cf temp with
        | some (some pa) => reconstructPath cf start fuel pa.1 (pa.2 :: acc)
        | _ => none

/-- The complete run of `astarLoop` from the initial search state
(`frontier = [(0, 0, start)]`, `came_from = {start: None}`,
`cost_so_far = {start: 0}`, cap 200). -/
def astarRun (start goal : Position) (walls : List Position) : AStarResult × Nat :=
  astarLoop goal walls 200 [(0, 0, start)] [(start, none)] [(start, 0)] 0

/-- `GoalBasedAgent._find_path_astar`. -/
def find_path_astar (start goal : Position) (walls : List Position) : List Action :=
  match (astarRun start goal walls).1 with
  | .aborted => []
  | .missingCost => []
  | .finished cf cs =>
      match lookupA cf goal with
      | none => []
      | some _ =>
          (reconstructPath cf start ((lookupA cs goal).getD 0 + 1) goal []).getD []

/-- The candidate goals built by `GoalBasedAgent._create_new_plan`:
(is-deliver, position, utility). -/
structure PlanCandidate where
  deliver : Bool
  pos : Position
  utility : ℚ
deriving Repr

/-- Python `max(goals, key=utility)` on a non-empty list: the first candidate
of maximal utility wins. -/
def maxByUtility (c : PlanCandidate) (cs : List PlanCandidate) : PlanCandidate :=
  cs.foldl (fun best x => if best.utility < x.utility then x else best) c

/-- `GoalBasedAgent._create_new_plan`. -/
def gb_create_new_plan (g : GBState) (perception : Perception) : GBState :=
  let my_pos := perception.position
  let goals : List PlanCandidate :=
    if perception.has_resource ∧ g.known_goals ≠ [] then
      g.known_goals.map (fun gp =>
        ⟨true, gp, 20 / ((manhattan my_pos gp : ℚ) + 1)⟩)
    else if ¬perception.has_resource ∧ g.known_resources ≠ [] then
      g.known_resources.map (fun rp =>
        ⟨false, rp, 10 / ((manhattan my_pos rp : ℚ) + 1)⟩)
    else []
  match goals with
  | [] => g
  | c :: cs =>
      let best_goal := maxByUtility c cs
      let path_actions := find_path_astar my_pos best_goal.pos g.known_walls
      match path_actions with
      | [] => g
      | _ =>
          let final_action : Action := if best_goal.deliver then .DROP else .PICKUP
          { g with current_plan :=
              path_actions.map (fun a => PlanStep.mk a) ++ [PlanStep.mk final_action] }

/-- `GoalBasedAgent.decide_action` (the rationale string is dropped; the
returned state carries the updated model and the consumed plan). -/
def gb_decide_action (rand : List Action → Action) (g : GBState)
    (perception : Perception) : Action × GBState :=
  let g1 := gb_update_world_model g perception
  let g2 := if g1.current_plan = [] then gb_create_new_plan g1 perception else g1
  match g2.current_plan with
  | next_step :: rest => (next_step.action, { g2 with current_plan := rest })
  | [] => (random_valid_move rand perception.visible_cells perception.position, g2)

/-! ### Verification-specific definitions: invariants, reachability, and the
concrete states used by counterexamples and witnesses -/

/-- Test state for C1: a goal-based agent standing on a known goal while
carrying, with a one-step queued plan. -/
def cexGB : GBState :=
  { current_plan := [⟨.MOVE_NORTH⟩], known_goals := [⟨0, 0⟩] }

/-- Test perception for C1: at position (0,0) — a known goal — and carrying. -/
def cexPerc : Perception :=
  { position := ⟨0, 0⟩, visible_cells := [], energy_level := 99, has_resource := true }

/-- The concrete environment used by several witnesses: a 3×1 grid with
resources at (0,0) and (1,0), and one registered agent (id 1) at (0,0). -/
def demoEnv : GridWorld :=
  ((((GridWorld.init 3 1 2).add_resources [⟨0, 0⟩, ⟨1, 0⟩]).add_agent {} ⟨0, 0⟩).2)

/-- Environment for the C6 witness: a 2×2 grid with a wall at (1,1) and no
agents yet. -/
def addEnv : GridWorld := (GridWorld.init 2 2 1).add_walls [⟨1, 1⟩]

/-- The invariant actually maintained by `execute_action` on every action
history: Drops never outnumber Pickups, and a history ending in Pickup has
strictly more Pickups than Drops. -/
def histInv (h : List Action) : Prop :=
  actCount .DROP h ≤ actCount .PICKUP h ∧
    (h.getLast? = some .PICKUP → actCount .DROP h < actCount .PICKUP h)

instance histInvDecidable (h : List Action) : Decidable (histInv h) :=
  inferInstanceAs (Decidable (_ ∧ _))

/-- The demo environment after agent 1 picks up the resource under it. -/
def demoPick : GridWorld := (demoEnv.execute_action 1 .PICKUP).getD demoEnv

/-- Environment for the C5 witness: 4×4 grid with a wall at (2,2) and one
agent (id 1) at (1,1). -/
def witEnv : GridWorld :=
  (((GridWorld.init 4 4 2).add_walls [⟨2, 2⟩]).add_agent {} ⟨1, 1⟩).2

/-- The perception of the C5 witness agent. -/
def witPerc : Perception :=
  { position := ⟨1, 1⟩
    visible_cells := witEnv.visibleCells ⟨1, 1⟩
    energy_level := 100
    has_resource := false }

/-- The perception of agent 1 right after its first Pickup in the demo
environment. -/
def demoPerc : Perception :=
  (demoPick.get_perception 1).getD
    { position := ⟨0, 0⟩, visible_cells := [], energy_level := 0, has_resource := false }

/-- The goal-based model used in the C10 witness. -/
def witGB : GBState := { action_history := [Action.PICKUP] }

/-- A state holding one frozen agent (energy 0) for the C4 witness. -/
def frozEnv : GridWorld :=
  { width := 2, height := 2, perception_range := 2, time_step := 0, grid := [],
    agents := [(1, { agent_id := 1, total_rewards := 0, action_history := [.WAIT] })],
    agent_positions := [(1, ⟨0, 0⟩)], initial_resource_count := 0, tasks_completed := 0,
    task_completion_times := [] }

/-- Reachability of a position from the start through moves whose target is
not a known wall — the graph A* searches. -/
inductive Reachable (walls : List Position) (start : Position) : Position → Prop
  | refl : Reachable walls start start
  | step (p : Position) (d : Direction) : Reachable walls start p →
      p.add d ∉ walls → Reachable walls start (p.add d)

/-! ## Basic lemmas about the dictionary model -/

theorem lookupA_updateA_self {α β : Type} [DecidableEq α] (l : List (α × β)) (k : α) (v : β) :
    lookupA (updateA l k v) k = some v := by
  induction l with
  | nil => simp [updateA, lookupA]
  | cons e l ih =>
      by_cases h : k = e.1
      · simp [updateA, lookupA, h]
      · simp [updateA, lookupA, h, ih]

theorem lookupA_updateA_ne {α β : Type} [DecidableEq α] (l : List (α × β)) (k k' : α) (v : β)
    (h : k' ≠ k) : lookupA (updateA l k v) k' = lookupA l k' := by
  induction l with
  | nil => simp [updateA, lookupA, h]
  | cons e l ih =>
      by_cases hk : k = e.1
      · subst hk
        simp [updateA, lookupA, h]
      · by_cases hk' : k' = e.1
        · simp [updateA, lookupA, hk, hk']
        · simp [updateA, lookupA, hk, hk', ih]

theorem lookupA_isSome_of_mem_keys {α β : Type} [DecidableEq α] (l : List (α × β)) (k : α)
    (h : k ∈ l.map Prod.fst) : (lookupA l k).isSome := by
  induction l with
  | nil => simp at h
  | cons e l ih =>
      by_cases hk : k = e.1
      · simp [lookupA, hk]
      · simp only [List.map_cons, List.mem_cons] at h
        rcases h with h1 | h1
        · exact absurd h1 hk
        · simpa [lookupA, hk] using ih h1

theorem mem_keys_of_lookupA_isSome {α β : Type} [DecidableEq α] (l : List (α × β)) (k : α)
    (h : (lookupA l k).isSome) : k ∈ l.map Prod.fst := by
  induction l with
  | nil => simp [lookupA] at h
  | cons e l ih =>
      by_cases hk : k = e.1
      · simp [hk]
      · simp only [lookupA, if_neg hk] at h
        simpa using Or.inr (ih h)

theorem lookupA_eq_none_of_not_mem {α β : Type} [DecidableEq α] (l : List (α × β)) (k : α)
    (h : k ∉ l.map Prod.fst) : lookupA l k = none := by
  cases hl : lookupA l k with
  | none => rfl
  | some v =>
      exact absurd (mem_keys_of_lookupA_isSome l k (by simp [hl])) h

theorem mem_keys_updateA {α β : Type} [DecidableEq α] (l : List (α × β)) (k k' : α) (v : β)
    (h : k' ∈ (updateA l k v).map Prod.fst) : k' = k ∨ k' ∈ l.map Prod.fst := by
  induction l with
  | nil => simpa [updateA] using h
  | cons e l ih =>
      by_cases hk : k = e.1
      · simp only [updateA, if_pos hk] at h
        simpa using Or.inr (by simpa using h)
      · simp only [updateA, if_neg hk, List.map_cons, List.mem_cons] at h
        rcases h with h | h
        · exact Or.inr (by simp [h])
        · rcases ih h with h1 | h1
          · exact Or.inl h1
          · exact Or.inr (by simp [h1])

theorem updateA_fresh {α β : Type} [DecidableEq α] (l : List (α × β)) (k : α) (v : β)
    (h : k ∉ l.map Prod.fst) : updateA l k v = l ++ [(k, v)] := by
  induction l with
  | nil => simp [updateA]
  | cons e l ih =>
      have hk : k ≠ e.1 := by
        intro hcon
        exact h (by simp [hcon])
      simp only [updateA, if_neg hk, List.cons_append, List.cons.injEq, true_and]
      exact ih (fun hcon => h (by simp [hcon]))

/-! ## Basic lemmas about action counting -/

theorem actCount_append_one (a b : Action) (l : List Action) :
    actCount a (l ++ [b]) = actCount a l + (if b = a then 1 else 0) := by
  induction l with
  | nil => simp [actCount]
  | cons c l ih =>
      rw [List.cons_append]
      show (if c = a then 1 else 0) + actCount a (l ++ [b]) =
        (if c = a then 1 else 0) + actCount a l + (if b = a then 1 else 0)
      rw [ih]
      omega

/-! ## C9 — construction performs no validation at all -/

/-- C9 (counterexample): constructing the environment with non-positive
width and height does not abort — it produces the ordinary fully initialised
state.  The constructor of `GridWorld` in `environment.py` contains no
validity check of any kind, so no input aborts construction. -/
theorem construction_nonpositive_dims_succeeds :
    GridWorld.init 0 (-5) 2 =
      { width := 0, height := -5, perception_range := 2, time_step := 0, grid := [],
        agents := [], agent_positions := [], initial_resource_count := 0,
        tasks_completed := 0, task_completion_times := [] } := rfl

/-- C9 (amended): construction never aborts; for every width, height and
perception range — including non-positive dimensions — the constructor
returns the initialised state storing those values unvalidated. -/
theorem construction_never_aborts (w h : Int) (r : Nat) :
    GridWorld.init w h r =
      { width := w, height := h, perception_range := r, time_step := 0, grid := [],
        agents := [], agent_positions := [], initial_resource_count := 0,
        tasks_completed := 0, task_completion_times := [] } := rfl

/-! ## C8 — concrete A* run -/

/-- C8: the A* pathfinder with an empty known-walls set, start (0,0) and
goal (2,0), returns exactly [MoveEast, MoveEast]. -/
theorem astar_open_grid_east_east :
    find_path_astar ⟨0, 0⟩ ⟨2, 0⟩ [] = [.MOVE_EAST, .MOVE_EAST] := by decide

/-! ## C1 — GoalBasedAgent has no immediate Drop/Pickup short-circuit -/

/-- The world-model update of the goal-based agent never touches the queued
plan. -/
theorem gb_update_preserves_plan (g : GBState) (p : Perception) :
    (gb_update_world_model g p).current_plan = g.current_plan := by
  have hfold : ∀ (l : List (Position × CellType)) (g' : GBState),
      (l.foldl gbMergeCell g').current_plan = g'.current_plan := by
    intro l
    induction l with
    | nil => intro g'; rfl
    | cons pc l ih =>
        intro g'
        rw [List.foldl_cons, ih]
        rcases pc with ⟨pp, c⟩
        cases c <;> rfl
  simp only [gb_update_world_model]
  split
  · simp [hfold]
  · simp [hfold]

/-- C1 (counterexample): a goal-based agent whose current position (0,0) is
in its known-goals set and whose perception has `has_resource = true`
nevertheless returns the first queued plan action (MoveNorth), not Drop:
`decide_action` of `GoalBasedAgent` contains no immediate-Drop rule. -/
theorem gb_no_drop_shortcircuit_counterexample :
    (⟨0, 0⟩ : Position) ∈ cexGB.known_goals ∧
    cexPerc.has_resource = true ∧
    cexPerc.position = ⟨0, 0⟩ ∧
    (gb_decide_action (fun _ => .WAIT) cexGB cexPerc).1 = .MOVE_NORTH := by decide

/-- C1 (amended): `GoalBasedAgent.decide_action` has no immediate
Drop/Pickup short-circuit.  Whenever the queued plan is non-empty it returns
the plan's first action — even when the current position is a known goal
while carrying, or a known resource while not carrying; Drop and Pickup are
issued only as queued plan steps. -/
theorem gb_decide_returns_plan_head (rand : List Action → Action) (g : GBState)
    (perception : Perception) (step : PlanStep) (rest : List PlanStep)
    (h : g.current_plan = step :: rest) :
    (gb_decide_action rand g perception).1 = step.action := by
  unfold gb_decide_action
  have h1 : (gb_update_world_model g perception).current_plan = step :: rest := by
    rw [gb_update_preserves_plan, h]
  simp [h1]

/-- C1 witness: the amended theorem applied to the concrete state of the
counterexample (known goal at the current position, carrying, queued plan
[MoveNorth]). -/
theorem gb_decide_returns_plan_head_witness :
    (gb_decide_action (fun _ => .WAIT) cexGB cexPerc).1 = Action.MOVE_NORTH :=
  gb_decide_returns_plan_head (fun _ => .WAIT) cexGB cexPerc ⟨.MOVE_NORTH⟩ [] rfl

/-! ## C3 — energy accounting of execute_action -/

theorem doMove_agents (s : GridWorld) (i : Int) (p : Position) (d : Direction) :
    (s.doMove i p d).agents = s.agents := by
  simp only [GridWorld.doMove]
  split <;> rfl

/-- C3: for every registered agent and every action, `execute_action`
succeeds and the agent's net energy change is exactly −1, except Wait whose
net change is exactly −1/2 (the unconditional up-front deduction of 1 plus
Wait's restoration of 1/2). -/
theorem execute_action_energy (s : GridWorld) (i : Int) (a : Action)
    (pos : Position) (ag : AgentState) (hag : lookupA s.agents i = some ag)
    (hpos : lookupA s.agent_positions i = some pos) :
    ∃ s' ag', s.execute_action i a = some s' ∧ lookupA s'.agents i = some ag' ∧
      ag'.total_rewards = ag.total_rewards - (if a = .WAIT then 1/2 else 1) := by
  unfold GridWorld.execute_action
  rw [hag, hpos]
  dsimp only
  cases a with
  | MOVE_NORTH =>
      exact ⟨_, _, rfl, by rw [doMove_agents]; exact lookupA_updateA_self _ _ _, by simp⟩
  | MOVE_SOUTH =>
      exact ⟨_, _, rfl, by rw [doMove_agents]; exact lookupA_updateA_self _ _ _, by simp⟩
  | MOVE_EAST =>
      exact ⟨_, _, rfl, by rw [doMove_agents]; exact lookupA_updateA_self _ _ _, by simp⟩
  | MOVE_WEST =>
      exact ⟨_, _, rfl, by rw [doMove_agents]; exact lookupA_updateA_self _ _ _, by simp⟩
  | PICKUP =>
      by_cases hc : lookupA s.grid pos = some CellType.RESOURCE
      · rw [if_pos hc]
        exact ⟨_, _, rfl, lookupA_updateA_self _ _ _, by simp⟩
      · rw [if_neg hc]
        exact ⟨_, _, rfl, lookupA_updateA_self _ _ _, by simp⟩
  | DROP =>
      by_cases hc : actCount .DROP ag.action_history < actCount .PICKUP ag.action_history
      · rw [if_pos hc]
        by_cases hg : lookupA s.grid pos = some CellType.GOAL
        · rw [if_pos hg]
          exact ⟨_, _, rfl, lookupA_updateA_self _ _ _, by simp⟩
        · rw [if_neg hg]
          exact ⟨_, _, rfl, lookupA_updateA_self _ _ _, by simp⟩
      · rw [if_neg hc]
        exact ⟨_, _, rfl, lookupA_updateA_self _ _ _, by simp⟩
  | WAIT =>
      refine ⟨_, _, rfl, lookupA_updateA_self _ _ _, ?_⟩
      rw [if_pos (rfl : Action.WAIT = Action.WAIT)]
      ring

/-- C3 witness: Wait by agent 1 of the demo environment nets exactly −1/2
from its initial energy 100. -/
theorem execute_action_energy_witness :
    ∃ s' ag', demoEnv.execute_action 1 .WAIT = some s' ∧
      lookupA s'.agents 1 = some ag' ∧
      ag'.total_rewards =
        (100 : ℚ) - (if Action.WAIT = Action.WAIT then 1/2 else 1) :=
  execute_action_energy demoEnv 1 .WAIT ⟨0, 0⟩
    { agent_id := 1, total_rewards := 100, action_history := [] } (by decide) (by decide)

/-! ## C6 — add_agent success condition and effect -/

theorem is_position_free_iff (s : GridWorld) (p : Position) :
    s.is_position_free p = true ↔
      (s.is_valid_position p = true ∧ lookupA s.grid p ≠ some CellType.WALL ∧
        ∀ e ∈ s.agent_positions, e.2 ≠ p) := by
  simp only [GridWorld.is_position_free, Bool.and_eq_true, Bool.not_eq_true',
    decide_eq_false_iff_not, decide_eq_true_eq, List.any_eq_false, Prod.forall]
  tauto

/-- C6: `add_agent` returns true iff the position is in bounds, not a Wall
cell and not occupied by an already-registered agent; on failure the state is
left unchanged; on success, the agent — carrying the next sequential id
`len(agents) + 1` — and its position are appended to the registries and
nothing else changes.  (The freshness hypotheses hold in every reachable
state, where ids are exactly 1..n.) -/
theorem add_agent_spec (s : GridWorld) (ag : AgentState) (p : Position)
    (hfreshA : ((s.agents.length : Int) + 1) ∉ s.agents.map Prod.fst)
    (hfreshP : ((s.agents.length : Int) + 1) ∉ s.agent_positions.map Prod.fst) :
    ((s.add_agent ag p).1 = true ↔
      (s.is_valid_position p = true ∧ lookupA s.grid p ≠ some CellType.WALL ∧
        ∀ e ∈ s.agent_positions, e.2 ≠ p)) ∧
    ((s.add_agent ag p).1 = false → (s.add_agent ag p).2 = s) ∧
    ((s.add_agent ag p).1 = true →
      (s.add_agent ag p).2 =
        { s with
          agents := s.agents ++
            [((s.agents.length : Int) + 1,
              { ag with agent_id := (s.agents.length : Int) + 1 })]
          agent_positions := s.agent_positions ++ [((s.agents.length : Int) + 1, p)] }) := by
  by_cases hfree : s.is_position_free p = true
  · refine ⟨?_, ?_, ?_⟩
    · rw [← is_position_free_iff]
      simp [GridWorld.add_agent, hfree]
    · simp [GridWorld.add_agent, hfree]
    · intro _
      simp only [GridWorld.add_agent, if_pos hfree]
      rw [updateA_fresh _ _ _ hfreshA, updateA_fresh _ _ _ hfreshP]
  · refine ⟨?_, ?_, ?_⟩
    · rw [← is_position_free_iff]
      simp [GridWorld.add_agent, hfree]
    · simp [GridWorld.add_agent, hfree]
    · intro hc
      exfalso
      simp [GridWorld.add_agent, hfree] at hc

/-- C6 witness: the success condition and effect of `add_agent` at the
concrete empty 2×2 environment. -/
theorem add_agent_spec_witness :
    ((addEnv.add_agent {} ⟨0, 0⟩).1 = true ↔
      (addEnv.is_valid_position ⟨0, 0⟩ = true ∧
        lookupA addEnv.grid ⟨0, 0⟩ ≠ some CellType.WALL ∧
        ∀ e ∈ addEnv.agent_positions, e.2 ≠ ⟨0, 0⟩)) ∧
    ((addEnv.add_agent {} ⟨0, 0⟩).1 = false → (addEnv.add_agent {} ⟨0, 0⟩).2 = addEnv) ∧
    ((addEnv.add_agent {} ⟨0, 0⟩).1 = true →
      (addEnv.add_agent {} ⟨0, 0⟩).2 =
        { addEnv with
          agents := addEnv.agents ++
            [((addEnv.agents.length : Int) + 1,
              { ({} : AgentState) with agent_id := (addEnv.agents.length : Int) + 1 })]
          agent_positions :=
            addEnv.agent_positions ++ [((addEnv.agents.length : Int) + 1, ⟨0, 0⟩)] }) :=
  add_agent_spec addEnv {} ⟨0, 0⟩ (by decide) (by decide)

/-! ## C2 — pickup/drop counting -/

theorem histInv_nil : histInv [] := by
  constructor
  · exact Nat.le_refl 0
  · intro h
    cases h

theorem histInv_append_pickup (h : List Action) (hi : histInv h) :
    histInv (h ++ [.PICKUP]) := by
  obtain ⟨h1, _⟩ := hi
  have e1 : actCount .DROP (h ++ [.PICKUP]) = actCount .DROP h := by
    rw [actCount_append_one]
    simp
  have e2 : actCount .PICKUP (h ++ [.PICKUP]) = actCount .PICKUP h + 1 := by
    rw [actCount_append_one]
    simp
  constructor
  · rw [e1, e2]
    omega
  · intro _
    rw [e1, e2]
    omega

theorem histInv_append_drop (h : List Action)
    (hg : actCount .DROP h < actCount .PICKUP h) : histInv (h ++ [.DROP]) := by
  have e1 : actCount .DROP (h ++ [.DROP]) = actCount .DROP h + 1 := by
    rw [actCount_append_one]
    simp
  have e2 : actCount .PICKUP (h ++ [.DROP]) = actCount .PICKUP h := by
    rw [actCount_append_one]
    simp
  constructor
  · rw [e1, e2]
    omega
  · intro hlast
    rw [List.getLast?_concat] at hlast
    cases hlast

theorem lookupA_mem {α β : Type} [DecidableEq α] {l : List (α × β)} {k : α} {v : β}
    (h : lookupA l k = some v) : (k, v) ∈ l := by
  induction l with
  | nil => cases h
  | cons e l ih =>
      rcases e with ⟨k0, v0⟩
      by_cases hk : k = k0
      · rw [lookupA, if_pos hk] at h
        rcases Option.some.injEq .. ▸ h with h'
        simp only [Option.some.injEq] at h'
        subst hk
        subst h'
        exact List.mem_cons_self _ _
      · rw [lookupA, if_neg hk] at h
        exact List.mem_cons_of_mem _ (ih h)

theorem lookup_update_cases {α β : Type} [DecidableEq α] {l : List (α × β)} {i j : α}
    {v w : β} (h : lookupA (updateA l i v) j = some w) :
    (j = i ∧ w = v) ∨ (j ≠ i ∧ lookupA l j = some w) := by
  by_cases hji : j = i
  · subst hji
    rw [lookupA_updateA_self] at h
    simp only [Option.some.injEq] at h
    exact Or.inl ⟨rfl, h.symm⟩
  · rw [lookupA_updateA_ne _ _ _ _ hji] at h
    exact Or.inr ⟨hji, h⟩

/-- One `execute_action` call preserves the history invariant of every
registered agent. -/
theorem execute_action_histInv (s : GridWorld) (i : Int) (a : Action) (s' : GridWorld)
    (h : s.execute_action i a = some s')
    (hinv : ∀ j ag, lookupA s.agents j = some ag → histInv ag.action_history) :
    ∀ j ag', lookupA s'.agents j = some ag' → histInv ag'.action_history := by
  intro j ag' hj
  unfold GridWorld.execute_action at h
  cases hag : lookupA s.agents i with
  | none => rw [hag] at h; cases h
  | some agent0 =>
  cases hpos : lookupA s.agent_positions i with
  | none => rw [hag, hpos] at h; cases h
  | some pos =>
  rw [hag, hpos] at h
  simp only [Option.some.injEq] at h
  subst h
  have hinv0 : histInv agent0.action_history := hinv i agent0 hag
  cases a with
  | MOVE_NORTH =>
      rw [doMove_agents] at hj
      rcases lookup_update_cases hj with ⟨_, hw⟩ | ⟨_, hl⟩
      · subst hw; exact hinv0
      · exact hinv j ag' hl
  | MOVE_SOUTH =>
      rw [doMove_agents] at hj
      rcases lookup_update_cases hj with ⟨_, hw⟩ | ⟨_, hl⟩
      · subst hw; exact hinv0
      · exact hinv j ag' hl
  | MOVE_EAST =>
      rw [doMove_agents] at hj
      rcases lookup_update_cases hj with ⟨_, hw⟩ | ⟨_, hl⟩
      · subst hw; exact hinv0
      · exact hinv j ag' hl
  | MOVE_WEST =>
      rw [doMove_agents] at hj
      rcases lookup_update_cases hj with ⟨_, hw⟩ | ⟨_, hl⟩
      · subst hw; exact hinv0
      · exact hinv j ag' hl
  | PICKUP =>
      dsimp only at hj
      by_cases hc : lookupA s.grid pos = some CellType.RESOURCE
      · rw [if_pos hc] at hj
        dsimp only at hj
        rcases lookup_update_cases hj with ⟨_, hw⟩ | ⟨_, hl⟩
        · subst hw
          exact histInv_append_pickup _ hinv0
        · rcases lookup_update_cases hl with ⟨_, hw⟩ | ⟨_, hl'⟩
          · subst hw; exact hinv0
          · exact hinv j ag' hl'
      · rw [if_neg hc] at hj
        dsimp only at hj
        rcases lookup_update_cases hj with ⟨_, hw⟩ | ⟨_, hl⟩
        · subst hw; exact hinv0
        · exact hinv j ag' hl
  | DROP =>
      dsimp only at hj
      by_cases hc : actCount .DROP agent0.action_history < actCount .PICKUP agent0.action_history
      · rw [if_pos hc] at hj
        by_cases hg : lookupA s.grid pos = some CellType.GOAL
        · rw [if_pos hg] at hj
          dsimp only at hj
          rcases lookup_update_cases hj with ⟨_, hw⟩ | ⟨_, hl⟩
          · subst hw
            exact histInv_append_drop _ hc
          · rcases lookup_update_cases hl with ⟨_, hw⟩ | ⟨_, hl'⟩
            · subst hw; exact hinv0
            · exact hinv j ag' hl'
        · rw [if_neg hg] at hj
          dsimp only at hj
          rcases lookup_update_cases hj with ⟨_, hw⟩ | ⟨_, hl⟩
          · subst hw
            exact histInv_append_drop _ hc
          · rcases lookup_update_cases hl with ⟨_, hw⟩ | ⟨_, hl'⟩
            · subst hw; exact hinv0
            · exact hinv j ag' hl'
      · rw [if_neg hc] at hj
        dsimp only at hj
        rcases lookup_update_cases hj with ⟨_, hw⟩ | ⟨_, hl⟩
        · subst hw; exact hinv0
        · exact hinv j ag' hl
  | WAIT =>
      dsimp only at hj
      rcases lookup_update_cases hj with ⟨_, hw⟩ | ⟨_, hl⟩
      · subst hw; exact hinv0
      · rcases lookup_update_cases hl with ⟨_, hw⟩ | ⟨_, hl'⟩
        · subst hw; exact hinv0
        · exact hinv j ag' hl'

/-- A whole sequence of `execute_action` calls preserves the history
invariant of every registered agent. -/
theorem execList_histInv (acts : List (Int × Action)) :
    ∀ s0 s', execList s0 acts = some s' →
      (∀ j ag, lookupA s0.agents j = some ag → histInv ag.action_history) →
      (∀ j ag, lookupA s'.agents j = some ag → histInv ag.action_history) := by
  induction acts with
  | nil =>
      intro s0 s' h hinv
      simp only [execList, Option.some.injEq] at h
      subst h
      exact hinv
  | cons ia rest ih =>
      intro s0 s' h hinv
      rcases ia with ⟨i, a⟩
      unfold execList at h
      cases hca : s0.execute_action i a with
      | none => rw [hca] at h; cases h
      | some s1 =>
          rw [hca] at h
          exact ih s1 s' h (execute_action_histInv s0 i a s1 hca hinv)

/-- C2 (counterexample): after the `execute_action` sequence Pickup,
MoveEast, Pickup in the demo environment (resources at (0,0) and (1,0)),
agent 1's history holds two Pickups and no Drop: the Pickup branch checks
only that the current cell is a Resource — not whether the agent is already
carrying — so both Pickups take observable effect and the Pickup−Drop
difference reaches 2. -/
theorem double_pickup_counterexample :
    (execList demoEnv [(1, .PICKUP), (1, .MOVE_EAST), (1, .PICKUP)]).map
      (fun s => (lookupA s.agents 1).map
        (fun a => (actCount .PICKUP a.action_history, actCount .DROP a.action_history)))
      = some (some (2, 0)) := by decide

/-- C2 (amended): after every sequence of `execute_action` calls (from any
state whose registered histories satisfy the maintained invariant, e.g. the
empty histories of freshly registered agents), the count of Pickups minus
the count of Drops is non-negative — Drop is rejected unless Pickups
strictly outnumber Drops.  The difference is, however, not bounded by 1: an
agent already carrying may Pickup again on another Resource cell (see the
counterexample), so "always 0 or 1" fails. -/
theorem pickup_drop_diff_nonneg (s0 : GridWorld)
    (hinit : ∀ e ∈ s0.agents, histInv e.2.action_history)
    (acts : List (Int × Action)) (s' : GridWorld) (h : execList s0 acts = some s')
    (i : Int) (ag : AgentState) (hag : lookupA s'.agents i = some ag) :
    actCount .DROP ag.action_history ≤ actCount .PICKUP ag.action_history := by
  have hinv0 : ∀ j a0, lookupA s0.agents j = some a0 → histInv a0.action_history :=
    fun j a0 hl => hinit (j, a0) (lookupA_mem hl)
  exact (execList_histInv acts s0 s' h hinv0 i ag hag).1

/-- C2 witness: the amended invariant applied to the concrete single-Pickup
run in the demo environment. -/
theorem pickup_drop_diff_nonneg_witness :
    actCount .DROP [Action.PICKUP] ≤ actCount .PICKUP [Action.PICKUP] :=
  pickup_drop_diff_nonneg demoEnv (by decide) [(1, .PICKUP)] demoPick
    (by with_unfolding_all decide) 1
    { agent_id := 1, total_rewards := 99, action_history := [Action.PICKUP] }
    (by with_unfolding_all decide)

/-! ## C5 — the perception window -/

theorem offsets_mem (R : Nat) (d : Int) : d ∈ offsets R ↔ (-(R : Int) ≤ d ∧ d ≤ R) := by
  simp only [offsets, List.mem_map, List.mem_range]
  constructor
  · rintro ⟨k, hk, rfl⟩
    omega
  · intro ⟨h1, h2⟩
    exact ⟨(d + R).toNat, by omega, by omega⟩

theorem offsets_length (R : Nat) : (offsets R).length = 2 * R + 1 := by
  simp [offsets]

theorem offsets_nodup (R : Nat) : (offsets R).Nodup := by
  refine List.Nodup.map ?_ (List.nodup_range _)
  intro a b h
  dsimp only at h
  omega

theorem sum_map_const {α : Type} (l : List α) (n : Nat) :
    (l.map (fun _ => n)).sum = l.length * n := by
  induction l with
  | nil => simp
  | cons a l ih => simp [ih, Nat.succ_mul, Nat.add_comm]

theorem visibleCells_length (s : GridWorld) (c : Position) :
    (s.visibleCells c).length = (2 * s.perception_range + 1) ^ 2 := by
  unfold GridWorld.visibleCells
  rw [List.length_flatMap]
  have h1 : (offsets s.perception_range).map
      (List.length ∘ (fun dy => (offsets s.perception_range).map (fun dx =>
        let pos : Position := ⟨c.x + dx, c.y + dy⟩
        (pos, s.windowCell pos)))) =
      (offsets s.perception_range).map (fun _ => 2 * s.perception_range + 1) := by
    apply List.map_congr_left
    intro dy _
    simp [offsets_length]
  rw [h1, sum_map_const, offsets_length]
  ring

theorem visibleCells_mem (s : GridWorld) (c : Position) (p : Position) (ct : CellType) :
    (p, ct) ∈ s.visibleCells c ↔
      ((p.x - c.x).natAbs ≤ s.perception_range ∧ (p.y - c.y).natAbs ≤ s.perception_range ∧
        ct = s.windowCell p) := by
  unfold GridWorld.visibleCells
  rw [List.mem_flatMap]
  constructor
  · rintro ⟨dy, hdy, hmem⟩
    rw [List.mem_map] at hmem
    obtain ⟨dx, hdx, heq⟩ := hmem
    rw [offsets_mem] at hdy hdx
    have hp : p = ⟨c.x + dx, c.y + dy⟩ := by
      have := congrArg Prod.fst heq
      simpa using this.symm
    have hct : ct = s.windowCell ⟨c.x + dx, c.y + dy⟩ := by
      have := congrArg Prod.snd heq
      simpa using this.symm
    subst hp
    refine ⟨by dsimp only; omega, by dsimp only; omega, hct⟩
  · rintro ⟨h1, h2, rfl⟩
    refine ⟨p.y - c.y, (offsets_mem _ _).mpr (by omega), ?_⟩
    rw [List.mem_map]
    refine ⟨p.x - c.x, (offsets_mem _ _).mpr (by omega), ?_⟩
    have hp : (⟨c.x + (p.x - c.x), c.y + (p.y - c.y)⟩ : Position) = p := by
      cases p
      simp only [Position.mk.injEq]
      omega
    simp only [hp]

/-- The key list of the perception window is the plain list of window
positions. -/
theorem visibleCells_keys (s : GridWorld) (c : Position) :
    (s.visibleCells c).map Prod.fst =
      (offsets s.perception_range).flatMap (fun dy =>
        (offsets s.perception_range).map
          (fun dx => (⟨c.x + dx, c.y + dy⟩ : Position))) := by
  unfold GridWorld.visibleCells
  simp only [List.map_flatMap, List.map_map]
  rfl

theorem visibleCells_keys_nodup (s : GridWorld) (c : Position) :
    ((s.visibleCells c).map Prod.fst).Nodup := by
  rw [visibleCells_keys, List.nodup_flatMap]
  constructor
  · intro dy _
    refine List.Nodup.map ?_ (offsets_nodup _)
    intro a b h
    simp only [Position.mk.injEq] at h
    omega
  · refine (offsets_nodup s.perception_range).imp ?_
    intro a b hab
    intro x hxa hxb
    rw [List.mem_map] at hxa hxb
    obtain ⟨dx1, _, rfl⟩ := hxa
    obtain ⟨dx2, _, heq⟩ := hxb
    simp only [Position.mk.injEq] at heq
    exact hab (by omega)

/-- C5: for every registered agent, the perception's visible-cells mapping
has exactly (2R+1)² entries with pairwise distinct keys, its keys are
exactly the square window of radius R centred on the agent's position, every
out-of-bounds coordinate maps to Wall, and every in-bounds coordinate maps
to its stored cell type (Empty if never set). -/
theorem perception_window_spec (s : GridWorld) (i : Int) (perc : Perception)
    (h : s.get_perception i = some perc) :
    perc.visible_cells.length = (2 * s.perception_range + 1) ^ 2 ∧
    (perc.visible_cells.map Prod.fst).Nodup ∧
    (∀ p ct, (p, ct) ∈ perc.visible_cells ↔
      ((p.x - perc.position.x).natAbs ≤ s.perception_range ∧
       (p.y - perc.position.y).natAbs ≤ s.perception_range ∧
       ct = (if s.is_valid_position p then (lookupA s.grid p).getD CellType.EMPTY
             else CellType.WALL))) := by
  unfold GridWorld.get_perception at h
  cases hpos : lookupA s.agent_positions i with
  | none => rw [hpos] at h; cases h
  | some agent_pos =>
  cases hag : lookupA s.agents i with
  | none => rw [hpos, hag] at h; cases h
  | some agent =>
  rw [hpos, hag] at h
  simp only [Option.some.injEq] at h
  subst h
  refine ⟨visibleCells_length s agent_pos, visibleCells_keys_nodup s agent_pos, ?_⟩
  intro p ct
  exact visibleCells_mem s agent_pos p ct

/-- C5 witness: the window specification at the concrete 4×4 environment
(25 entries for R = 2). -/
theorem perception_window_spec_witness :
    witPerc.visible_cells.length = (2 * witEnv.perception_range + 1) ^ 2 ∧
    (witPerc.visible_cells.map Prod.fst).Nodup ∧
    (∀ p ct, (p, ct) ∈ witPerc.visible_cells ↔
      ((p.x - witPerc.position.x).natAbs ≤ witEnv.perception_range ∧
       (p.y - witPerc.position.y).natAbs ≤ witEnv.perception_range ∧
       ct = (if witEnv.is_valid_position p then (lookupA witEnv.grid p).getD CellType.EMPTY
             else CellType.WALL))) :=
  perception_window_spec witEnv 1 witPerc (by with_unfolding_all decide)

/-! ## C10 — the known-resources removal branch is dead; model sets grow -/

theorem insertPos_subset (l : List Position) (p : Position) : l ⊆ insertPos l p := by
  unfold insertPos
  split
  · exact fun x hx => hx
  · exact fun x hx => List.mem_append_left _ hx

theorem mbMergeCell_mono (m : MBModel) (pc : Position × CellType) :
    m.known_walls ⊆ (mbMergeCell m pc).known_walls ∧
    m.known_resources ⊆ (mbMergeCell m pc).known_resources ∧
    m.known_goals ⊆ (mbMergeCell m pc).known_goals := by
  rcases pc with ⟨p, c⟩
  cases c <;>
    exact ⟨by first | exact fun x hx => hx | exact insertPos_subset _ _,
           by first | exact fun x hx => hx | exact insertPos_subset _ _,
           by first | exact fun x hx => hx | exact insertPos_subset _ _⟩

theorem mbFold_mono (l : List (Position × CellType)) :
    ∀ m : MBModel,
      m.known_walls ⊆ (l.foldl mbMergeCell m).known_walls ∧
      m.known_resources ⊆ (l.foldl mbMergeCell m).known_resources ∧
      m.known_goals ⊆ (l.foldl mbMergeCell m).known_goals := by
  induction l with
  | nil => exact fun m => ⟨fun x hx => hx, fun x hx => hx, fun x hx => hx⟩
  | cons pc l ih =>
      intro m
      have h1 := mbMergeCell_mono m pc
      have h2 := ih (mbMergeCell m pc)
      exact ⟨h1.1.trans h2.1, h1.2.1.trans h2.2.1, h1.2.2.trans h2.2.2⟩

theorem gbMergeCell_mono (g : GBState) (pc : Position × CellType) :
    g.known_walls ⊆ (gbMergeCell g pc).known_walls ∧
    g.known_resources ⊆ (gbMergeCell g pc).known_resources ∧
    g.known_goals ⊆ (gbMergeCell g pc).known_goals := by
  rcases pc with ⟨p, c⟩
  cases c <;>
    exact ⟨by first | exact fun x hx => hx | exact insertPos_subset _ _,
           by first | exact fun x hx => hx | exact insertPos_subset _ _,
           by first | exact fun x hx => hx | exact insertPos_subset _ _⟩

theorem gbFold_mono (l : List (Position × CellType)) :
    ∀ g : GBState,
      g.known_walls ⊆ (l.foldl gbMergeCell g).known_walls ∧
      g.known_resources ⊆ (l.foldl gbMergeCell g).known_resources ∧
      g.known_goals ⊆ (l.foldl gbMergeCell g).known_goals := by
  induction l with
  | nil => exact fun g => ⟨fun x hx => hx, fun x hx => hx, fun x hx => hx⟩
  | cons pc l ih =>
      intro g
      have h1 := gbMergeCell_mono g pc
      have h2 := ih (gbMergeCell g pc)
      exact ⟨h1.1.trans h2.1, h1.2.1.trans h2.2.1, h1.2.2.trans h2.2.2⟩

/-- When the perception's carrying flag is consistent with the history (as
every environment-generated perception is), the removal branch of
`ModelBasedReflexAgent._update_world_model` cannot fire and the model only
grows. -/
theorem mb_update_mono (m : MBModel) (hist : List Action) (perc : Perception)
    (hcons : hist.getLast? = some .PICKUP → perc.has_resource = true) :
    m.known_walls ⊆ (mb_update_world_model m hist perc).known_walls ∧
    m.known_resources ⊆ (mb_update_world_model m hist perc).known_resources ∧
    m.known_goals ⊆ (mb_update_world_model m hist perc).known_goals := by
  simp only [mb_update_world_model]
  split
  · rename_i hguard
    rw [hcons hguard.2.2.2] at hguard
    cases hguard.2.2.1
  · exact mbFold_mono perc.visible_cells
      { m with visited_positions := insertPos m.visited_positions perc.position }

/-- The goal-based analogue of `mb_update_mono`. -/
theorem gb_update_mono (g : GBState) (perc : Perception)
    (hcons : g.action_history.getLast? = some .PICKUP → perc.has_resource = true) :
    g.known_walls ⊆ (gb_update_world_model g perc).known_walls ∧
    g.known_resources ⊆ (gb_update_world_model g perc).known_resources ∧
    g.known_goals ⊆ (gb_update_world_model g perc).known_goals := by
  simp only [gb_update_world_model]
  split
  · rename_i hguard
    rw [hcons hguard.2.2.2] at hguard
    cases hguard.2.2.1
  · exact gbFold_mono perc.visible_cells
      { g with visited_positions := insertPos g.visited_positions perc.position }

/-- C10: in every state reached by `execute_action` sequences (from initial
histories satisfying the maintained invariant — e.g. empty), a history whose
last entry is Pickup has strictly more Pickups than Drops, so the
environment-generated perception reports `has_resource = true`;
consequently the known-resources removal branch of both world-model updates
never executes and the known-walls/known-resources/known-goals sets of both
agents only grow. -/
theorem known_sets_only_grow (s0 : GridWorld)
    (hinit : ∀ e ∈ s0.agents, histInv e.2.action_history)
    (acts : List (Int × Action)) (s' : GridWorld) (h : execList s0 acts = some s')
    (i : Int) (ag : AgentState) (hag : lookupA s'.agents i = some ag)
    (perc : Perception) (hp : s'.get_perception i = some perc)
    (m : MBModel) (g : GBState) (hg : g.action_history = ag.action_history) :
    (ag.action_history.getLast? = some .PICKUP → perc.has_resource = true) ∧
    (m.known_walls ⊆ (mb_update_world_model m ag.action_history perc).known_walls ∧
     m.known_resources ⊆ (mb_update_world_model m ag.action_history perc).known_resources ∧
     m.known_goals ⊆ (mb_update_world_model m ag.action_history perc).known_goals) ∧
    (g.known_walls ⊆ (gb_update_world_model g perc).known_walls ∧
     g.known_resources ⊆ (gb_update_world_model g perc).known_resources ∧
     g.known_goals ⊆ (gb_update_world_model g perc).known_goals) := by
  have hhr : perc.has_resource = hasResourceOf ag.action_history := by
    unfold GridWorld.get_perception at hp
    cases hpos : lookupA s'.agent_positions i with
    | none => rw [hpos] at hp; cases hp
    | some agent_pos =>
        rw [hpos, hag] at hp
        simp only [Option.some.injEq] at hp
        subst hp
        rfl
  have hinv : histInv ag.action_history :=
    execList_histInv acts s0 s' h
      (fun j a0 hl => hinit (j, a0) (lookupA_mem hl)) i ag hag
  have hcons : ag.action_history.getLast? = some .PICKUP → perc.has_resource = true := by
    intro hlast
    rw [hhr]
    exact decide_eq_true (hinv.2 hlast)
  exact ⟨hcons, mb_update_mono m ag.action_history perc hcons,
    gb_update_mono g perc (by rw [hg]; exact hcons)⟩

/-- C10 witness: the dead-branch/monotonicity theorem applied right after a
concrete Pickup (history [Pickup], so the perception reports carrying). -/
theorem known_sets_only_grow_witness :
    (([Action.PICKUP].getLast? = some Action.PICKUP → demoPerc.has_resource = true) ∧
    (({} : MBModel).known_walls ⊆
        (mb_update_world_model {} [Action.PICKUP] demoPerc).known_walls ∧
     ({} : MBModel).known_resources ⊆
        (mb_update_world_model {} [Action.PICKUP] demoPerc).known_resources ∧
     ({} : MBModel).known_goals ⊆
        (mb_update_world_model {} [Action.PICKUP] demoPerc).known_goals) ∧
    (witGB.known_walls ⊆ (gb_update_world_model witGB demoPerc).known_walls ∧
     witGB.known_resources ⊆ (gb_update_world_model witGB demoPerc).known_resources ∧
     witGB.known_goals ⊆ (gb_update_world_model witGB demoPerc).known_goals)) :=
  known_sets_only_grow demoEnv (by decide) [(1, .PICKUP)] demoPick
    (by with_unfolding_all decide) 1
    { agent_id := 1, total_rewards := 99, action_history := [Action.PICKUP] }
    (by with_unfolding_all decide) demoPerc (by with_unfolding_all decide)
    {} witGB rfl

/-! ## C4 — agents frozen at energy ≤ 0 never change again -/

theorem doMove_lookup_positions_ne (s : GridWorld) (j : Int) (p : Position) (d : Direction)
    (i : Int) (hij : i ≠ j) :
    lookupA (s.doMove j p d).agent_positions i = lookupA s.agent_positions i := by
  simp only [GridWorld.doMove]
  split
  · exact lookupA_updateA_ne _ _ _ _ hij
  · rfl

/-- `execute_action` for one agent never touches another agent's record or
registered position. -/
theorem execute_action_other_agent (s : GridWorld) (j : Int) (a : Action) (s' : GridWorld)
    (h : s.execute_action j a = some s') (i : Int) (hij : i ≠ j) :
    lookupA s'.agents i = lookupA s.agents i ∧
    lookupA s'.agent_positions i = lookupA s.agent_positions i := by
  unfold GridWorld.execute_action at h
  cases hag : lookupA s.agents j with
  | none => rw [hag] at h; cases h
  | some agent0 =>
  cases hpos : lookupA s.agent_positions j with
  | none => rw [hag, hpos] at h; cases h
  | some pos =>
  rw [hag, hpos] at h
  simp only [Option.some.injEq] at h
  subst h
  cases a with
  | MOVE_NORTH =>
      rw [doMove_agents, doMove_lookup_positions_ne _ _ _ _ _ hij]
      exact ⟨lookupA_updateA_ne _ _ _ _ hij, rfl⟩
  | MOVE_SOUTH =>
      rw [doMove_agents, doMove_lookup_positions_ne _ _ _ _ _ hij]
      exact ⟨lookupA_updateA_ne _ _ _ _ hij, rfl⟩
  | MOVE_EAST =>
      rw [doMove_agents, doMove_lookup_positions_ne _ _ _ _ _ hij]
      exact ⟨lookupA_updateA_ne _ _ _ _ hij, rfl⟩
  | MOVE_WEST =>
      rw [doMove_agents, doMove_lookup_positions_ne _ _ _ _ _ hij]
      exact ⟨lookupA_updateA_ne _ _ _ _ hij, rfl⟩
  | PICKUP =>
      dsimp only
      split
      · exact ⟨(lookupA_updateA_ne _ _ _ _ hij).trans (lookupA_updateA_ne _ _ _ _ hij), rfl⟩
      · exact ⟨lookupA_updateA_ne _ _ _ _ hij, rfl⟩
  | DROP =>
      dsimp only
      split
      · split
        · exact ⟨(lookupA_updateA_ne _ _ _ _ hij).trans (lookupA_updateA_ne _ _ _ _ hij), rfl⟩
        · exact ⟨(lookupA_updateA_ne _ _ _ _ hij).trans (lookupA_updateA_ne _ _ _ _ hij), rfl⟩
      · exact ⟨lookupA_updateA_ne _ _ _ _ hij, rfl⟩
  | WAIT =>
      exact ⟨(lookupA_updateA_ne _ _ _ _ hij).trans (lookupA_updateA_ne _ _ _ _ hij), rfl⟩

/-- Processing any agent id during a tick leaves a frozen agent's record and
position untouched. -/
theorem stepOne_frozen (df : GridWorld → Int → Action) (s : GridWorld) (i : Int)
    (ag : AgentState) (hag : lookupA s.agents i = some ag) (hE : ag.total_rewards ≤ 0)
    (j : Int) :
    lookupA (GridWorld.stepOne df s j).agents i = some ag ∧
    lookupA (GridWorld.stepOne df s j).agent_positions i = lookupA s.agent_positions i := by
  by_cases hij : i = j
  · subst hij
    unfold GridWorld.stepOne
    rw [hag]
    dsimp only
    rw [if_pos hE]
    exact ⟨hag, rfl⟩
  · unfold GridWorld.stepOne
    cases hagj : lookupA s.agents j with
    | none => exact ⟨hag, rfl⟩
    | some agj =>
        dsimp only
        by_cases hEj : agj.total_rewards ≤ 0
        · rw [if_pos hEj]
          exact ⟨hag, rfl⟩
        · rw [if_neg hEj]
          cases hx : s.execute_action j (df s j) with
          | none => exact ⟨hag, rfl⟩
          | some s' =>
              have hother := execute_action_other_agent s j (df s j) s' hx i hij
              simp only [Option.getD_some]
              exact ⟨hother.1.trans hag, hother.2⟩

theorem foldl_stepOne_frozen (df : GridWorld → Int → Action) (ids : List Int) :
    ∀ (s : GridWorld) (i : Int) (ag : AgentState),
      lookupA s.agents i = some ag → ag.total_rewards ≤ 0 →
      lookupA (ids.foldl (GridWorld.stepOne df) s).agents i = some ag ∧
      lookupA (ids.foldl (GridWorld.stepOne df) s).agent_positions i =
        lookupA s.agent_positions i := by
  induction ids with
  | nil =>
      intro s i ag h _
      exact ⟨h, rfl⟩
  | cons j ids ih =>
      intro s i ag h hE
      have h1 := stepOne_frozen df s i ag h hE j
      have h2 := ih (GridWorld.stepOne df s j) i ag h1.1 hE
      exact ⟨h2.1, h2.2.trans h1.2⟩

theorem step_frozen (df : GridWorld → Int → Action) (s : GridWorld) (i : Int)
    (ag : AgentState) (hag : lookupA s.agents i = some ag) (hE : ag.total_rewards ≤ 0) :
    lookupA (s.step df).agents i = some ag ∧
    lookupA (s.step df).agent_positions i = lookupA s.agent_positions i := by
  unfold GridWorld.step
  exact foldl_stepOne_frozen df _ _ i ag hag hE

/-- C4: in every run driven only by `step()`, once a registered agent's
energy is ≤ 0 it is skipped on every subsequent tick: for every decision
oracle and every number of further ticks, its full agent record — energy and
action history — and its registered position never change again. -/
theorem frozen_agent_never_changes (df : GridWorld → Int → Action) (s : GridWorld)
    (i : Int) (ag : AgentState) (hag : lookupA s.agents i = some ag)
    (hE : ag.total_rewards ≤ 0) (n : Nat) :
    lookupA (s.stepN df n).agents i = some ag ∧
    lookupA (s.stepN df n).agent_positions i = lookupA s.agent_positions i := by
  induction n generalizing s with
  | zero => exact ⟨hag, rfl⟩
  | succ n ih =>
      have h1 := step_frozen df s i ag hag hE
      have h2 := ih (s.step df) h1.1
      exact ⟨h2.1, h2.2.trans h1.2⟩

/-- C4 witness: after three further ticks under an always-Wait oracle, the
frozen agent's record and position are exactly as before. -/
theorem frozen_agent_never_changes_witness :
    lookupA (frozEnv.stepN (fun _ _ => .WAIT) 3).agents 1 =
      some { agent_id := 1, total_rewards := 0, action_history := [.WAIT] } ∧
    lookupA (frozEnv.stepN (fun _ _ => .WAIT) 3).agent_positions 1 =
      lookupA frozEnv.agent_positions 1 :=
  frozen_agent_never_changes (fun _ _ => .WAIT) frozEnv 1
    { agent_id := 1, total_rewards := 0, action_history := [.WAIT] }
    (by with_unfolding_all decide) (by norm_num) 3

/-! ## C7 — A* termination bound and empty-result cases -/

theorem popMinNE_mem (e : FrontierEntry) (es : List FrontierEntry) :
    (popMinNE e es).1 ∈ e :: es := by
  induction es generalizing e with
  | nil => simp [popMinNE]
  | cons e' es ih =>
      rw [popMinNE]
      split
      · exact List.mem_cons_self _ _
      · exact List.mem_cons_of_mem _ (ih e')

theorem popMinNE_rest_subset (e : FrontierEntry) (es : List FrontierEntry) :
    ∀ x ∈ (popMinNE e es).2, x ∈ e :: es := by
  induction es generalizing e with
  | nil => simp [popMinNE]
  | cons e' es ih =>
      rw [popMinNE]
      split
      · intro x hx
        exact List.mem_cons_of_mem _ hx
      · intro x hx
        rcases List.mem_cons.mp hx with rfl | hx'
        · exact List.mem_cons_self _ _
        · exact List.mem_cons_of_mem _ (ih e' x hx')

/-- The loop performs at most `fuel` pops. -/
theorem astarLoop_pops_le (goal : Position) (walls : List Position) :
    ∀ (fuel : Nat) (f : List FrontierEntry) (cf : CameFrom) (cs : CostSoFar) (tie : Nat),
      (astarLoop goal walls fuel f cf cs tie).2 ≤ fuel := by
  intro fuel
  induction fuel with
  | zero =>
      intro f cf cs tie
      cases f <;> simp [astarLoop]
  | succ fuel ih =>
      intro f cf cs tie
      cases f with
      | nil => simp [astarLoop]
      | cons e es =>
          rw [astarLoop]
          split
          · dsimp only
            omega
          · split
            · dsimp only
              omega
            · dsimp only
              exact Nat.succ_le_succ (ih _ _ _ _)

/-- One direction expansion preserves "all came_from keys and frontier
positions are reachable". -/
theorem expandDir_inv (goal : Position) (walls : List Position) (start cur : Position)
    (curCost : Nat) (hcur : Reachable walls start cur) (st : AStarSearchState)
    (d : Direction)
    (hcf : ∀ q ∈ st.2.1.map Prod.fst, Reachable walls start q)
    (hf : ∀ e ∈ st.1, Reachable walls start e.2.2) :
    (∀ q ∈ (expandDir goal walls cur curCost st d).2.1.map Prod.fst,
        Reachable walls start q) ∧
    (∀ e ∈ (expandDir goal walls cur curCost st d).1, Reachable walls start e.2.2) := by
  unfold expandDir
  dsimp only
  split
  · exact ⟨hcf, hf⟩
  · rename_i hnw
    split
    · constructor
      · intro q hq
        rcases mem_keys_updateA _ _ _ _ hq with rfl | hq'
        · exact Reachable.step cur d hcur hnw
        · exact hcf q hq'
      · intro x hx
        rcases List.mem_append.mp hx with hx' | hx'
        · exact hf x hx'
        · rcases List.mem_singleton.mp hx' with rfl
          exact Reachable.step cur d hcur hnw
    · exact ⟨hcf, hf⟩

/-- The whole four-direction expansion preserves the invariant. -/
theorem expand_foldl_inv (goal : Position) (walls : List Position) (start cur : Position)
    (curCost : Nat) (hcur : Reachable walls start cur) (ds : List Direction) :
    ∀ st : AStarSearchState,
      (∀ q ∈ st.2.1.map Prod.fst, Reachable walls start q) →
      (∀ e ∈ st.1, Reachable walls start e.2.2) →
      (∀ q ∈ (ds.foldl (expandDir goal walls cur curCost) st).2.1.map Prod.fst,
          Reachable walls start q) ∧
      (∀ e ∈ (ds.foldl (expandDir goal walls cur curCost) st).1,
          Reachable walls start e.2.2) := by
  induction ds with
  | nil => exact fun st hcf hf => ⟨hcf, hf⟩
  | cons d ds ih =>
      intro st hcf hf
      have h1 := expandDir_inv goal walls start cur curCost hcur st d hcf hf
      exact ih _ h1.1 h1.2

/-- If the goal is unreachable, every `came_from` key the loop can produce is
still reachable — so the goal is never among them. -/
theorem astarLoop_keys_reachable (walls : List Position) (start goal : Position)
    (hg : ¬ Reachable walls start goal) :
    ∀ (fuel : Nat) (f : List FrontierEntry) (cf : CameFrom) (cs : CostSoFar) (tie : Nat),
      (∀ q ∈ cf.map Prod.fst, Reachable walls start q) →
      (∀ e ∈ f, Reachable walls start e.2.2) →
      ∀ cf' cs', (astarLoop goal walls fuel f cf cs tie).1 = .finished cf' cs' →
        ∀ q ∈ cf'.map Prod.fst, Reachable walls start q := by
  intro fuel
  induction fuel with
  | zero =>
      intro f cf cs tie hcf hf cf' cs' hres
      cases f with
      | nil =>
          simp only [astarLoop, AStarResult.finished.injEq] at hres
          rw [← hres.1]
          exact hcf
      | cons e es => simp [astarLoop] at hres
  | succ fuel ih =>
      intro f cf cs tie hcf hf cf' cs' hres
      cases f with
      | nil =>
          simp only [astarLoop, AStarResult.finished.injEq] at hres
          rw [← hres.1]
          exact hcf
      | cons e es =>
          rw [astarLoop] at hres
          dsimp only at hres
          split at hres
          · rename_i hgoal
            exact absurd (hgoal ▸ hf _ (popMinNE_mem e es)) hg
          · split at hres
            · cases hres
            · rename_i curCost hcs
              have hone := expand_foldl_inv goal walls start (popMinNE e es).1.2.2 curCost
                (hf _ (popMinNE_mem e es)) directionsList
                ((popMinNE e es).2, cf, cs, tie) hcf
                (fun x hx => hf x (popMinNE_rest_subset e es x hx))
              exact ih _ _ _ _ hone.1 hone.2 cf' cs' hres

/-- Popping the goal on the first iteration ends the loop at once. -/
theorem astarLoop_first_is_goal (goal : Position) (walls : List Position) (fuel : Nat)
    (e : FrontierEntry) (es : List FrontierEntry) (cf : CameFrom) (cs : CostSoFar)
    (tie : Nat) (h : (popMinNE e es).1.2.2 = goal) :
    (astarLoop goal walls (fuel + 1) (e :: es) cf cs tie).1 = .finished cf cs := by
  rw [astarLoop]
  dsimp only
  rw [if_pos h]

/-- C7: the A* search performs at most 200 pops of the frontier, and returns
an empty action sequence whenever the goal equals the start, whenever the
goal is unreachable through the known walls, and whenever the 200-pop cap
aborts the search. -/
theorem astar_bounded_and_empty (start goal : Position) (walls : List Position) :
    (astarRun start goal walls).2 ≤ 200 ∧
    (goal = start → find_path_astar start goal walls = []) ∧
    (¬ Reachable walls start goal → find_path_astar start goal walls = []) ∧
    ((astarRun start goal walls).1 = .aborted → find_path_astar start goal walls = []) := by
  refine ⟨astarLoop_pops_le goal walls 200 _ _ _ _, ?_, ?_, ?_⟩
  · intro hgs
    subst hgs
    have h1 : (astarRun goal goal walls).1 = .finished [(goal, none)] [(goal, 0)] :=
      astarLoop_first_is_goal goal walls 199 (0, 0, goal) [] [(goal, none)] [(goal, 0)] 0 rfl
    unfold find_path_astar
    rw [h1]
    simp [lookupA, reconstructPath]
  · intro hnr
    cases hres : (astarRun start goal walls).1 with
    | aborted =>
        unfold find_path_astar
        rw [hres]
    | missingCost =>
        unfold find_path_astar
        rw [hres]
    | finished cf cs =>
        have hkeys := astarLoop_keys_reachable walls start goal hnr 200
          [(0, 0, start)] [(start, none)] [(start, 0)] 0
          (by
            intro q hq
            simp only [List.map_cons, List.map_nil, List.mem_singleton] at hq
            subst hq
            exact Reachable.refl)
          (by
            intro x hx
            rcases List.mem_singleton.mp hx with rfl
            exact Reachable.refl)
          cf cs hres
        have hnone : lookupA cf goal = none := by
          apply lookupA_eq_none_of_not_mem
          intro hmem
          exact hnr (hkeys goal hmem)
        unfold find_path_astar
        rw [hres]
        dsimp only
        rw [hnone]
  · intro hab
    unfold find_path_astar
    rw [hab]

/-- C7 witness: the pop bound and the empty-result cases at concrete inputs —
goal = start at (0,0), and a goal at (5,5) walled off from the start (0,0)
by walls on all four of the start's neighbours. -/
theorem astar_bounded_and_empty_witness :
    (astarRun ⟨0, 0⟩ ⟨0, 0⟩ []).2 ≤ 200 ∧
    find_path_astar ⟨0, 0⟩ ⟨0, 0⟩ [] = [] ∧
    find_path_astar ⟨0, 0⟩ ⟨5, 5⟩ [⟨0, -1⟩, ⟨0, 1⟩, ⟨1, 0⟩, ⟨-1, 0⟩] = [] := by
  refine ⟨(astar_bounded_and_empty ⟨0, 0⟩ ⟨0, 0⟩ []).1,
    (astar_bounded_and_empty ⟨0, 0⟩ ⟨0, 0⟩ []).2.1 rfl,
    (astar_bounded_and_empty ⟨0, 0⟩ ⟨5, 5⟩ [⟨0, -1⟩, ⟨0, 1⟩, ⟨1, 0⟩, ⟨-1, 0⟩]).2.2.1 ?_⟩
  intro hre
  have honly : ∀ q, Reachable [(⟨0, -1⟩ : Position), ⟨0, 1⟩, ⟨1, 0⟩, ⟨-1, 0⟩] ⟨0, 0⟩ q →
      q = ⟨0, 0⟩ := by
    intro q hq
    induction hq with
    | refl => rfl
    | step p d hp hnw ihp =>
        exfalso
        apply hnw
        subst ihp
        cases d <;> decide
  have h55 := honly ⟨5, 5⟩ hre
  simp at h55

end AMAI
